import Mathlib

/-!
Shallow embedding of the MoveSync cross-database reconciliation engine
(`src/db_info.py`) in Lean 4, together with theorems settling the
specification claims about it.

Modelling conventions:
* A query against an endpoint is an `Except String` value: `.ok` with the
  result on success, `.error msg` when the remote query raises.
* `count_rows`, the per-(schema, table, side) audit task, is embedded as a
  total function of the query outcome, mirroring the Python function's
  catch-all `except` that stores the message instead of raising.
* The in-progress reconciliation mapping (the Python insertion-ordered
  `dict` named `rows`) is an association list; the `as_completed` stream is
  an explicit `order : List (TableKey × Side)`, a permutation of the
  submitted task list.
* The pandas expression
  `merged_df["estimated_rows_source"] == merged_df["estimated_rows_target"]`
  is embedded cell-wise by `pandasEqCell`: a comparison in which either cell
  is a missing value (`None` kept in an object column, or `NaN` after float
  coercion) is `False` — pandas' comparison kernels guard every cell with a
  null check and return `False` for `==` on missing values in every dtype —
  so the resulting `row_count_match` column is boolean and a null never
  equals anything, not even another null.
* The report sink (`save_results_to_file`) is external (spec §2, §6); it is
  modelled as a function from section label (and, on the discovery path,
  dataset) to `Except String Unit`.
-/

namespace MoveSync

/-- A table identity `(schema_name, table_name)`, as returned by `get_tables`. -/
abbrev TableKey := String × String

/-- One of the two endpoints being compared. -/
inductive Side where
  | source
  | target
deriving DecidableEq, Repr

/-- The record built by `count_rows` for one (schema, table, side) task:
schema and table name, the count (present on success) and the side's error
message (present on failure). -/
structure SideOutcome where
  schema_name : String
  table_name : String
  count : Option Nat
  err : Option String
deriving DecidableEq, Repr

/-- Embedding of `count_rows` (db_info.py:131-145): the `SELECT COUNT(*)`
outcome is the `q` argument; on success the count is stored and the error
stays `None`, on exception the message is stored and the count stays `None`.
The Python function never raises: it is a total function here. -/
def count_rows (schema table : String) (q : Except String Nat) : SideOutcome :=
  match q with
  | .ok n => ⟨schema, table, some n, none⟩
  | .error e => ⟨schema, table, none, some e⟩

/-- One row of the aggregated mapping `rows` in `compare_row_counts`
(db_info.py:181-188): both sides' counts and error fields. -/
structure ReconRecord where
  schema_name : String
  table_name : String
  estimated_rows_source : Option Nat
  estimated_rows_target : Option Nat
  source_error : Option String
  target_error : Option String
deriving DecidableEq, Repr

/-- The default-initialised record created when a key is first seen
(db_info.py:181-188). -/
def initRecord (schema table : String) : ReconRecord :=
  ⟨schema, table, none, none, none, none⟩

/-- Embedding of `rows[key].update(result)` (db_info.py:189): the completed
side's outcome dict overwrites exactly the four keys it carries —
`schema_name`, `table_name`, and that side's count and error fields. -/
def updateRecord (r : ReconRecord) (side : Side) (o : SideOutcome) : ReconRecord :=
  match side with
  | .source =>
      { r with schema_name := o.schema_name, table_name := o.table_name,
               estimated_rows_source := o.count, source_error := o.err }
  | .target =>
      { r with schema_name := o.schema_name, table_name := o.table_name,
               estimated_rows_target := o.count, target_error := o.err }

/-- The keys of the aggregation mapping, in insertion order (Python dict
iteration order). -/
def aggKeys (rows : List (TableKey × ReconRecord)) : List TableKey :=
  rows.map Prod.fst

/-- In-place update of the entry stored under key `k` (Python
`rows[key].update(...)` when the key is present). -/
def updIn (rows : List (TableKey × ReconRecord)) (k : TableKey)
    (f : ReconRecord → ReconRecord) : List (TableKey × ReconRecord) :=
  rows.map (fun p => if p.1 = k then (p.1, f p.2) else p)

/-- One iteration of the completion loop (db_info.py:174-192): the task's
`count_rows` result is merged into `rows`, creating the default record first
when the key is new (appended, preserving dict insertion order). -/
def aggStep (env : TableKey → Side → Except String Nat)
    (rows : List (TableKey × ReconRecord)) (t : TableKey × Side) :
    List (TableKey × ReconRecord) :=
  let o := count_rows t.1.1 t.1.2 (env t.1 t.2)
  if t.1 ∈ aggKeys rows then
    updIn rows t.1 (fun r => updateRecord r t.2 o)
  else
    rows ++ [(t.1, updateRecord (initRecord t.1.1 t.1.2) t.2 o)]

/-- The whole completion loop: fold the completion stream `order` into the
initially empty mapping. -/
def aggregate (env : TableKey → Side → Except String Nat)
    (order : List (TableKey × Side)) : List (TableKey × ReconRecord) :=
  order.foldl (aggStep env) []

/-- Lexicographic order on table keys, the order Python's `sorted` uses on
`(schemaname, relname)` tuples: strings compare by their code-point
sequences. -/
def keyLe (a b : TableKey) : Prop :=
  a.1.data < b.1.data ∨ (a.1 = b.1 ∧ (a.2.data < b.2.data ∨ a.2 = b.2))

instance : DecidableRel keyLe := fun a b =>
  inferInstanceAs
    (Decidable (a.1.data < b.1.data ∨ (a.1 = b.1 ∧ (a.2.data < b.2.data ∨ a.2 = b.2))))

instance : IsTotal TableKey keyLe where
  total a b := by
    have sde : ∀ {x y : String}, x.data = y.data → x = y := by
      intro x y h
      cases x; cases y; exact congrArg String.mk h
    rcases lt_trichotomy a.1.data b.1.data with h | h | h
    · exact Or.inl (Or.inl h)
    · rcases lt_trichotomy a.2.data b.2.data with h2 | h2 | h2
      · exact Or.inl (Or.inr ⟨sde h, Or.inl h2⟩)
      · exact Or.inl (Or.inr ⟨sde h, Or.inr (sde h2)⟩)
      · exact Or.inr (Or.inr ⟨(sde h).symm, Or.inl h2⟩)
    · exact Or.inr (Or.inl h)

instance : IsTrans TableKey keyLe where
  trans a b c hab hbc := by
    rcases hab with h1 | ⟨e1, l1⟩
    · rcases hbc with h2 | ⟨e2, _⟩
      · exact Or.inl (h1.trans h2)
      · exact Or.inl (e2 ▸ h1)
    · rcases hbc with h2 | ⟨e2, l2⟩
      · exact Or.inl (e1 ▸ h2)
      · refine Or.inr ⟨e1.trans e2, ?_⟩
        rcases l1 with l1 | l1
        · rcases l2 with l2 | l2
          · exact Or.inl (l1.trans l2)
          · exact Or.inl (l2 ▸ l1)
        · exact l1 ▸ l2

/-- Embedding of `sorted(source_tables.union(target_tables))`
(db_info.py:160-162): the deduplicated union of the two enumerations, sorted
lexicographically.  (Python's `sorted` on a set of distinct keys yields the
unique sorted enumeration; insertion sort computes the same list.) -/
def all_tables (src tgt : List TableKey) : List TableKey :=
  ((src ++ tgt).dedup).insertionSort keyLe

/-- The submitted task list (db_info.py:170-172): for each table of
`all_tables`, one source task then one target task. -/
def subTasks (ts : List TableKey) : List (TableKey × Side) :=
  ts.flatMap (fun k => [(k, Side.source), (k, Side.target)])

/-- One cell of the pandas comparison
`merged_df["estimated_rows_source"] == merged_df["estimated_rows_target"]`.
Two present numbers compare numerically.  A missing value — `None` in an
object column or `NaN` after float coercion — compares unequal to
everything, including another missing value: pandas' comparison kernels
null-check each cell and yield `False` for `==` on missing values in every
dtype. -/
def pandasEqCell (a b : Option Nat) : Bool :=
  match a, b with
  | some x, some y => x == y
  | _, _ => false

/-- One row of `merged_df` after the `row_count_match` column is added
(db_info.py:194-197): the aggregated record plus the boolean match cell. -/
structure ReconRow where
  record : ReconRecord
  row_count_match : Bool
deriving DecidableEq, Repr

/-- Embedding of db_info.py:194-197: build `merged_df` from the aggregated
records and add the `row_count_match` column via the pandas comparison. -/
def addMatchColumn (rs : List ReconRecord) : List ReconRow :=
  rs.map (fun r =>
    ⟨r, pandasEqCell r.estimated_rows_source r.estimated_rows_target⟩)

/-- Embedding of `source_set` (db_info.py:199-205): the
`(schema, table, count)` tuples of the records whose source count is present
(`notna`). -/
def sourceTuples (rs : List ReconRecord) : List (String × String × Nat) :=
  rs.filterMap (fun r =>
    r.estimated_rows_source.map (fun n => (r.schema_name, r.table_name, n)))

/-- Embedding of `target_set` (db_info.py:200-209). -/
def targetTuples (rs : List ReconRecord) : List (String × String × Nat) :=
  rs.filterMap (fun r =>
    r.estimated_rows_target.map (fun n => (r.schema_name, r.table_name, n)))

/-- Embedding of `missing_in_source = target_set - source_set`
(db_info.py:211). -/
def missing_in_source (rs : List ReconRecord) : List (String × String × Nat) :=
  (targetTuples rs).filter (fun t => decide (t ∉ sourceTuples rs))

/-- Embedding of `missing_in_target = source_set - target_set`
(db_info.py:212). -/
def missing_in_target (rs : List ReconRecord) : List (String × String × Nat) :=
  (sourceTuples rs).filter (fun t => decide (t ∉ targetTuples rs))

/-- The three datasets `compare_row_counts` hands to the report sink
(db_info.py:222-225). -/
structure CompareDatasets where
  full : List ReconRow
  missingInSource : List (String × String × Nat)
  missingInTarget : List (String × String × Nat)
deriving DecidableEq, Repr

/-- The pure part of `compare_row_counts` (db_info.py:160-220): aggregate the
completion stream, add the match column, and compute the two diff sets. -/
def compare_pipeline (env : TableKey → Side → Except String Nat)
    (order : List (TableKey × Side)) : CompareDatasets :=
  let rs := (aggregate env order).map Prod.snd
  ⟨addMatchColumn rs, missing_in_source rs, missing_in_target rs⟩

/-- Embedding of the final save sequence of `compare_row_counts`
(db_info.py:222-225): the three `save_results_to_file` calls are not inside
any `try`, so the first sink failure propagates to the caller.  The sink is
abstracted by section label (spec §6). -/
def compare_row_counts_run (env : TableKey → Side → Except String Nat)
    (order : List (TableKey × Side)) (sink : String → Except String Unit) :
    Except String CompareDatasets :=
  let d := compare_pipeline env order
  match sink "RowCountComparison" with
  | .error e => .error e
  | .ok _ =>
    match sink "MissingInSource" with
    | .error e => .error e
    | .ok _ =>
      match sink "MissingInTarget" with
      | .error e => .error e
      | .ok _ => .ok d

/-- A result row of a discovery catalog query (opaque tuple of column
values). -/
abbrev Row := List String

/-- The value `find_objects` hands on for one label: either the non-empty
row list, or the `"{types_name} not found."` marker string returned when the
query legitimately yields no rows. -/
inductive FindResult where
  | rows (l : List Row)
  | absent (msg : String)
deriving DecidableEq, Repr

/-- Embedding of `find_objects` (db_info.py:52-59): on query success return
the rows when non-empty, else the not-found marker; a query exception
propagates out of the function (the `.error` case), to be caught by the
caller's loop. (The `conn is None` guard at db_info.py:55 is dead: the
session constructor never yields `None`.) -/
def find_objects (types_name : String) (q : Except String (List Row)) :
    Except String FindResult :=
  match q with
  | .error e => .error e
  | .ok l => .ok (if l.isEmpty then .absent (types_name ++ " not found.") else .rows l)

/-- What the completion loop of `fetch_db_info` does with one label, as
recorded in the log: the result was saved; the query failed (caught and
logged at db_info.py:118-119); or the save failed — also caught by the same
`except` block, because the `save_results_to_file` call sits inside the
`try` (db_info.py:112-119). -/
inductive LabelEvent where
  | saved (label : String) (r : FindResult)
  | queryFailed (label : String) (e : String)
  | saveFailed (label : String) (e : String)
deriving DecidableEq, Repr

/-- The label an event belongs to. -/
def LabelEvent.label : LabelEvent → String
  | .saved l _ => l
  | .queryFailed l _ => l
  | .saveFailed l _ => l

/-- One iteration of the `as_completed` loop of `fetch_db_info`
(db_info.py:110-119): take the label's future result and try to save it;
any exception — from the query or from the sink — is caught and logged, and
the loop moves on. -/
def processLabel (env : String → Except String (List Row))
    (sink : String → FindResult → Except String Unit) (lbl : String) :
    LabelEvent :=
  match find_objects lbl (env lbl) with
  | .error e => .queryFailed lbl e
  | .ok r =>
    match sink lbl r with
    | .error e => .saveFailed lbl e
    | .ok _ => .saved lbl r

/-- The whole completion loop of `fetch_db_info`: each label is processed
independently; no outcome ever escapes the per-iteration `try`. -/
def fetch_loop (env : String → Except String (List Row))
    (sink : String → FindResult → Except String Unit) (labels : List String) :
    List LabelEvent :=
  labels.map (processLabel env sink)

/-- Embedding of `fetch_db_info` (db_info.py:83-121).  `queriesLoad` is the
outcome of loading the JSON query-definition file: a failure there is
re-raised (db_info.py:96-101) before any query is submitted — the result
does not depend on `env`.  On success every label is dispatched and the
function returns normally with the event log, whatever happened per label. -/
def fetch_db_info (queriesLoad : Except String (List (String × String)))
    (env : String → Except String (List Row))
    (sink : String → FindResult → Except String Unit) :
    Except String (List LabelEvent) :=
  match queriesLoad with
  | .error e => .error e
  | .ok qs => .ok (fetch_loop env sink (qs.map Prod.fst))

/-! ### Derived notions used by the verification -/

/-- The opposite side. -/
def Side.other : Side → Side
  | .source => .target
  | .target => .source

/-- The stored count field of the given side. -/
def ReconRecord.countOf (r : ReconRecord) : Side → Option Nat
  | .source => r.estimated_rows_source
  | .target => r.estimated_rows_target

/-- The stored error field of the given side. -/
def ReconRecord.errOf (r : ReconRecord) : Side → Option String
  | .source => r.source_error
  | .target => r.target_error

/-- The stored record's name fields agree with the dictionary key it is
stored under. -/
def keyConsistent (rows : List (TableKey × ReconRecord)) : Prop :=
  ∀ p ∈ rows, p.2.schema_name = p.1.1 ∧ p.2.table_name = p.1.2

/-- Per side, the stored count and the stored error are never both present:
an audit attempt ends in exactly one of them (or neither, before the side
has reported). -/
def sideExclusive (r : ReconRecord) : Prop :=
  (r.estimated_rows_source = none ∨ r.source_error = none) ∧
    (r.estimated_rows_target = none ∨ r.target_error = none)

/-- After the `(k, side)` task has completed, every stored record under key
`k` carries exactly that task's outcome in its `side` fields. -/
def sideSettled (env : TableKey → Side → Except String Nat) (k : TableKey)
    (side : Side) (rows : List (TableKey × ReconRecord)) : Prop :=
  k ∈ aggKeys rows ∧
    ∀ p ∈ rows, p.1 = k →
      p.2.countOf side = (count_rows k.1 k.2 (env k side)).count ∧
      p.2.errOf side = (count_rows k.1 k.2 (env k side)).err

/-! ### Concrete inputs used in scenario theorems, counterexamples and
witnesses -/

/-- Source-side enumeration of the spec §8 scenario: `public.a`, `public.b`. -/
def srcC4 : List TableKey := [("public", "a"), ("public", "b")]

/-- Target-side enumeration of the spec §8 scenario: `public.a`, `public.c`. -/
def tgtC4 : List TableKey := [("public", "a"), ("public", "c")]

/-- Query outcomes of the spec §8 scenario: `public.a` has 10 rows on both
sides, `public.b` has 5 rows on the source and does not exist on the target,
`public.c` has 3 rows on the target and does not exist on the source. -/
def envC4 : TableKey → Side → Except String Nat := fun k s =>
  match k, s with
  | ("public", "a"), _ => .ok 10
  | ("public", "b"), .source => .ok 5
  | ("public", "b"), .target => .error "relation public.b does not exist"
  | ("public", "c"), .source => .error "relation public.c does not exist"
  | ("public", "c"), .target => .ok 3
  | _, _ => .error "unknown table"

/-- A completion order for the scenario: tasks complete in submission order. -/
def orderC4 : List (TableKey × Side) := subTasks (all_tables srcC4 tgtC4)

/-- The scenario's output row for `public.a`. -/
def rowC4a : ReconRow :=
  ⟨⟨"public", "a", some 10, some 10, none, none⟩, true⟩

/-- Both-side enumeration used by the ordering counterexample. -/
def srcC9 : List TableKey := [("public", "a"), ("public", "b")]

/-- Query outcomes for the ordering counterexample: every count succeeds. -/
def envC9 : TableKey → Side → Except String Nat := fun _ _ => .ok 1

/-- A completion order in which both of `public.b`'s tasks finish before
`public.a`'s — a permutation of the submitted tasks. -/
def orderC9 : List (TableKey × Side) :=
  [(("public", "b"), Side.source), (("public", "b"), Side.target),
   (("public", "a"), Side.source), (("public", "a"), Side.target)]

/-- A discovery environment in which every catalog query succeeds with one
row. -/
def envDiscOk : String → Except String (List Row) := fun _ => .ok [["t1"]]

/-- A discovery environment in which the query of the label `"Tables"` fails
and every other query succeeds. -/
def envDiscFail : String → Except String (List Row) := fun lbl =>
  if lbl = "Tables" then .error "connection reset" else .ok [["v1"]]

/-- A discovery-path report sink that always succeeds. -/
def sinkDiscOk : String → FindResult → Except String Unit := fun _ _ => .ok ()

/-- A discovery-path report sink that always fails. -/
def sinkDiscFail : String → FindResult → Except String Unit :=
  fun _ _ => .error "disk full"

/-- A reconciliation-path report sink that always fails. -/
def sinkCmpFail : String → Except String Unit := fun _ => .error "disk full"

/-- A reconciliation-path report sink that always succeeds. -/
def sinkCmpOk : String → Except String Unit := fun _ => .ok ()

/-! ### Helper lemmas about the aggregation loop -/

theorem aggKeys_append (a b : List (TableKey × ReconRecord)) :
    aggKeys (a ++ b) = aggKeys a ++ aggKeys b := by
  simp [aggKeys]

theorem aggKeys_updIn (rows : List (TableKey × ReconRecord)) (k : TableKey)
    (f : ReconRecord → ReconRecord) : aggKeys (updIn rows k f) = aggKeys rows := by
  unfold aggKeys updIn
  rw [List.map_map]
  apply List.map_congr_left
  intro p _
  by_cases h : p.1 = k <;> simp [h]

theorem mem_aggKeys_aggStep {env : TableKey → Side → Except String Nat}
    {rows : List (TableKey × ReconRecord)} {t : TableKey × Side} {k : TableKey} :
    k ∈ aggKeys (aggStep env rows t) ↔ k ∈ aggKeys rows ∨ k = t.1 := by
  unfold aggStep
  by_cases h : t.1 ∈ aggKeys rows
  · simp only [h, if_pos, aggKeys_updIn]
    constructor
    · exact Or.inl
    · rintro (hk | rfl)
      · exact hk
      · exact h
  · simp only [h, if_neg, not_false_iff, aggKeys_append]
    simp [aggKeys]

theorem mem_aggKeys_foldl (env : TableKey → Side → Except String Nat)
    (order : List (TableKey × Side)) :
    ∀ (acc : List (TableKey × ReconRecord)) (k : TableKey),
      k ∈ aggKeys (order.foldl (aggStep env) acc) ↔
        k ∈ aggKeys acc ∨ k ∈ order.map Prod.fst := by
  induction order with
  | nil => intro acc k; simp
  | cons t rest ih =>
    intro acc k
    rw [List.foldl_cons, ih, mem_aggKeys_aggStep]
    simp only [List.map_cons, List.mem_cons]
    tauto

theorem nodup_aggKeys_aggStep {env : TableKey → Side → Except String Nat}
    {rows : List (TableKey × ReconRecord)} {t : TableKey × Side}
    (h : (aggKeys rows).Nodup) : (aggKeys (aggStep env rows t)).Nodup := by
  unfold aggStep
  by_cases hm : t.1 ∈ aggKeys rows
  · simpa only [hm, if_pos, aggKeys_updIn] using h
  · simp only [hm, if_neg, not_false_iff, aggKeys_append]
    simp only [aggKeys, List.map_cons, List.map_nil]
    exact List.Nodup.append h (List.nodup_singleton _) (by simpa [aggKeys, List.disjoint_singleton] using hm)

theorem nodup_aggKeys_foldl (env : TableKey → Side → Except String Nat)
    (order : List (TableKey × Side)) :
    ∀ (acc : List (TableKey × ReconRecord)), (aggKeys acc).Nodup →
      (aggKeys (order.foldl (aggStep env) acc)).Nodup := by
  induction order with
  | nil => intro acc h; simpa using h
  | cons t rest ih =>
    intro acc h
    rw [List.foldl_cons]
    exact ih _ (nodup_aggKeys_aggStep h)

theorem nodup_aggKeys_aggregate (env : TableKey → Side → Except String Nat)
    (order : List (TableKey × Side)) : (aggKeys (aggregate env order)).Nodup :=
  nodup_aggKeys_foldl env order [] (by simp [aggKeys])

theorem mem_aggKeys_aggregate (env : TableKey → Side → Except String Nat)
    (order : List (TableKey × Side)) (k : TableKey) :
    k ∈ aggKeys (aggregate env order) ↔ k ∈ order.map Prod.fst := by
  rw [aggregate, mem_aggKeys_foldl]
  simp [aggKeys]

theorem count_rows_names (schema table : String) (q : Except String Nat) :
    (count_rows schema table q).schema_name = schema ∧
      (count_rows schema table q).table_name = table := by
  cases q <;> simp [count_rows]

theorem updateRecord_names (r : ReconRecord) (side : Side) (o : SideOutcome) :
    (updateRecord r side o).schema_name = o.schema_name ∧
      (updateRecord r side o).table_name = o.table_name := by
  cases side <;> simp [updateRecord]

theorem keyConsistent_aggStep {env : TableKey → Side → Except String Nat}
    {rows : List (TableKey × ReconRecord)} {t : TableKey × Side}
    (h : keyConsistent rows) : keyConsistent (aggStep env rows t) := by
  unfold aggStep
  by_cases hm : t.1 ∈ aggKeys rows
  · simp only [hm, if_pos]
    intro p hp
    unfold updIn at hp
    rw [List.mem_map] at hp
    obtain ⟨q, hq, hpq⟩ := hp
    by_cases hqk : q.1 = t.1
    · subst hpq
      simp only [hqk, if_pos]
      rcases updateRecord_names q.2 t.2 (count_rows t.1.1 t.1.2 (env t.1 t.2)) with ⟨h1, h2⟩
      rcases count_rows_names t.1.1 t.1.2 (env t.1 t.2) with ⟨h3, h4⟩
      exact ⟨by rw [h1, h3], by rw [h2, h4]⟩
    · subst hpq
      simp only [hqk, if_neg, not_false_iff]
      exact h q hq
  · simp only [hm, if_neg, not_false_iff]
    intro p hp
    rw [List.mem_append] at hp
    rcases hp with hp | hp
    · exact h p hp
    · rw [List.mem_singleton] at hp
      subst hp
      rcases updateRecord_names (initRecord t.1.1 t.1.2) t.2
          (count_rows t.1.1 t.1.2 (env t.1 t.2)) with ⟨h1, h2⟩
      rcases count_rows_names t.1.1 t.1.2 (env t.1 t.2) with ⟨h3, h4⟩
      exact ⟨by rw [h1, h3], by rw [h2, h4]⟩

theorem keyConsistent_aggregate (env : TableKey → Side → Except String Nat)
    (order : List (TableKey × Side)) : keyConsistent (aggregate env order) := by
  rw [aggregate]
  have : ∀ (acc : List (TableKey × ReconRecord)), keyConsistent acc →
      keyConsistent (order.foldl (aggStep env) acc) := by
    induction order with
    | nil => intro acc h; simpa using h
    | cons t rest ih =>
      intro acc h
      rw [List.foldl_cons]
      exact ih _ (keyConsistent_aggStep h)
  exact this [] (by intro p hp; simp at hp)

theorem count_rows_exclusive (schema table : String) (q : Except String Nat) :
    ((count_rows schema table q).count = none ∧ (count_rows schema table q).err.isSome) ∨
      ((count_rows schema table q).count.isSome ∧ (count_rows schema table q).err = none) := by
  cases q with
  | ok n => right; simp [count_rows]
  | error e => left; simp [count_rows]

theorem sideExclusive_updateRecord {r : ReconRecord} (side : Side)
    (schema table : String) (q : Except String Nat) (h : sideExclusive r) :
    sideExclusive (updateRecord r side (count_rows schema table q)) := by
  rcases h with ⟨hs, ht⟩
  cases side <;> cases q <;>
    simp [updateRecord, count_rows, sideExclusive, hs, ht]

theorem sideExclusive_aggStep {env : TableKey → Side → Except String Nat}
    {rows : List (TableKey × ReconRecord)} {t : TableKey × Side}
    (h : ∀ p ∈ rows, sideExclusive p.2) :
    ∀ p ∈ aggStep env rows t, sideExclusive p.2 := by
  unfold aggStep
  by_cases hm : t.1 ∈ aggKeys rows
  · simp only [hm, if_pos]
    intro p hp
    unfold updIn at hp
    rw [List.mem_map] at hp
    obtain ⟨q, hq, hpq⟩ := hp
    by_cases hqk : q.1 = t.1
    · subst hpq
      simp only [hqk, if_pos]
      exact sideExclusive_updateRecord t.2 t.1.1 t.1.2 (env t.1 t.2) (h q hq)
    · subst hpq
      simp only [hqk, if_neg, not_false_iff]
      exact h q hq
  · simp only [hm, if_neg, not_false_iff]
    intro p hp
    rw [List.mem_append] at hp
    rcases hp with hp | hp
    · exact h p hp
    · rw [List.mem_singleton] at hp
      subst hp
      exact sideExclusive_updateRecord t.2 t.1.1 t.1.2 (env t.1 t.2)
        (by simp [initRecord, sideExclusive])

theorem sideExclusive_aggregate (env : TableKey → Side → Except String Nat)
    (order : List (TableKey × Side)) :
    ∀ p ∈ aggregate env order, sideExclusive p.2 := by
  rw [aggregate]
  have : ∀ (acc : List (TableKey × ReconRecord)), (∀ p ∈ acc, sideExclusive p.2) →
      ∀ p ∈ order.foldl (aggStep env) acc, sideExclusive p.2 := by
    induction order with
    | nil => intro acc h; simpa using h
    | cons t rest ih =>
      intro acc h
      rw [List.foldl_cons]
      exact ih _ (sideExclusive_aggStep h)
  exact this [] (by intro p hp; simp at hp)

/-! ### Helper lemmas about the task list and the sorted union -/

theorem subTasks_map_fst (ts : List TableKey) :
    (subTasks ts).map Prod.fst = ts.flatMap (fun k => [k, k]) := by
  induction ts with
  | nil => simp [subTasks]
  | cons a l ih => simp_all [subTasks]

theorem mem_subTasks_map_fst (ts : List TableKey) (k : TableKey) :
    k ∈ (subTasks ts).map Prod.fst ↔ k ∈ ts := by
  rw [subTasks_map_fst]
  simp

theorem mem_subTasks (ts : List TableKey) (k : TableKey) (s : Side) :
    (k, s) ∈ subTasks ts ↔ k ∈ ts := by
  unfold subTasks
  rw [List.mem_flatMap]
  constructor
  · rintro ⟨a, ha, hm⟩
    simp only [List.mem_cons, List.mem_singleton, List.not_mem_nil, or_false] at hm
    rcases hm with hm | hm <;> (rw [Prod.mk.injEq] at hm; rw [hm.1]; exact ha)
  · intro hk
    refine ⟨k, hk, ?_⟩
    cases s
    · exact List.mem_cons_self _ _
    · exact List.mem_cons_of_mem _ (List.mem_cons_self _ _)

theorem mem_all_tables (src tgt : List TableKey) (k : TableKey) :
    k ∈ all_tables src tgt ↔ k ∈ src ∨ k ∈ tgt := by
  rw [all_tables, List.mem_insertionSort, List.mem_dedup, List.mem_append]

theorem nodup_all_tables (src tgt : List TableKey) : (all_tables src tgt).Nodup :=
  ((List.perm_insertionSort keyLe _).nodup_iff).mpr (List.nodup_dedup _)

theorem sorted_all_tables (src tgt : List TableKey) :
    (all_tables src tgt).Pairwise keyLe :=
  List.sorted_insertionSort keyLe _

theorem aggKeys_foldl_subTasks (env : TableKey → Side → Except String Nat) :
    ∀ (ts : List TableKey) (acc : List (TableKey × ReconRecord)), ts.Nodup →
      (∀ k ∈ ts, k ∉ aggKeys acc) →
      aggKeys ((subTasks ts).foldl (aggStep env) acc) = aggKeys acc ++ ts := by
  intro ts
  induction ts with
  | nil => intro acc _ _; simp [subTasks]
  | cons k rest ih =>
    intro acc hnd hdisj
    have hk : k ∉ aggKeys acc := hdisj k (List.mem_cons_self _ _)
    have step1 : aggStep env acc (k, Side.source) =
        acc ++ [(k, updateRecord (initRecord k.1 k.2) Side.source
          (count_rows k.1 k.2 (env k Side.source)))] := by
      unfold aggStep
      simp only [hk, if_neg, not_false_iff]
    have keys1 : aggKeys (aggStep env acc (k, Side.source)) = aggKeys acc ++ [k] := by
      rw [step1, aggKeys_append]
      simp [aggKeys]
    have hk1 : k ∈ aggKeys (aggStep env acc (k, Side.source)) := by
      rw [keys1]; simp
    have step2keys : aggKeys (aggStep env (aggStep env acc (k, Side.source)) (k, Side.target)) =
        aggKeys acc ++ [k] := by
      generalize hacc1 : aggStep env acc (k, Side.source) = acc1 at keys1 hk1
      unfold aggStep
      simp only [hk1, if_pos, aggKeys_updIn]
      exact keys1
    have hsub : subTasks (k :: rest) =
        (k, Side.source) :: (k, Side.target) :: subTasks rest := by
      simp [subTasks]
    rw [hsub, List.foldl_cons, List.foldl_cons]
    rw [ih _ (List.Nodup.of_cons hnd) ?_]
    · rw [step2keys, List.append_assoc]
      simp
    · intro k2 hk2
      rw [step2keys, List.mem_append, List.mem_singleton]
      rintro (h | rfl)
      · exact hdisj k2 (List.mem_cons_of_mem _ hk2) h
      · exact (List.nodup_cons.mp hnd).1 hk2

theorem aggKeys_aggregate_subTasks (env : TableKey → Side → Except String Nat)
    (ts : List TableKey) (hnd : ts.Nodup) :
    aggKeys (aggregate env (subTasks ts)) = ts := by
  rw [aggregate, aggKeys_foldl_subTasks env ts [] hnd (by intro k _; simp [aggKeys])]
  simp [aggKeys]

/-! ### Per-side field access and the merge frame property -/

theorem side_eq_other_of_ne {s t : Side} (h : t ≠ s) : t = s.other := by
  cases s <;> cases t <;> simp [Side.other] at h ⊢

theorem updateRecord_frame (r : ReconRecord) (side : Side) (o : SideOutcome) :
    (updateRecord r side o).countOf side = o.count ∧
      (updateRecord r side o).errOf side = o.err ∧
      (updateRecord r side o).countOf side.other = r.countOf side.other ∧
      (updateRecord r side o).errOf side.other = r.errOf side.other := by
  cases side <;>
    simp [updateRecord, Side.other, ReconRecord.countOf, ReconRecord.errOf]

theorem updateRecord_self_fields (r : ReconRecord) (side : Side) (o : SideOutcome) :
    (updateRecord r side o).countOf side = o.count ∧
      (updateRecord r side o).errOf side = o.err := by
  cases side <;> simp [updateRecord, ReconRecord.countOf, ReconRecord.errOf]

theorem updateRecord_other_fields {side ts : Side} (hne : ts ≠ side)
    (r : ReconRecord) (o : SideOutcome) :
    (updateRecord r ts o).countOf side = r.countOf side ∧
      (updateRecord r ts o).errOf side = r.errOf side := by
  cases side <;> cases ts <;>
    simp_all [updateRecord, ReconRecord.countOf, ReconRecord.errOf]

theorem sideSettled_aggStep {env : TableKey → Side → Except String Nat}
    {k : TableKey} {side : Side} {rows : List (TableKey × ReconRecord)}
    {t : TableKey × Side} (h : sideSettled env k side rows) :
    sideSettled env k side (aggStep env rows t) := by
  obtain ⟨tk, ts⟩ := t
  obtain ⟨hmem, hall⟩ := h
  refine ⟨mem_aggKeys_aggStep.mpr (Or.inl hmem), ?_⟩
  unfold aggStep
  by_cases hm : tk ∈ aggKeys rows
  · simp only [hm, if_pos]
    intro p hp hpk
    unfold updIn at hp
    rw [List.mem_map] at hp
    obtain ⟨q, hq, hpq⟩ := hp
    subst hpq
    by_cases hqk : q.1 = tk
    · simp only [hqk, if_pos] at hpk ⊢
      by_cases hts : ts = side
      · subst hts; subst hpk
        exact updateRecord_self_fields q.2 ts _
      · rcases updateRecord_other_fields hts q.2
            (count_rows tk.1 tk.2 (env (tk, ts).1 (tk, ts).2)) with ⟨h1, h2⟩
        rw [h1, h2]
        exact hall q hq (hqk.trans hpk)
    · simp only [hqk, if_neg, not_false_iff] at hpk ⊢
      exact hall q hq hpk
  · simp only [hm, if_neg, not_false_iff]
    intro p hp hpk
    rw [List.mem_append] at hp
    rcases hp with hp | hp
    · exact hall p hp hpk
    · rw [List.mem_singleton] at hp
      subst hp
      simp only at hpk
      exact absurd (hpk ▸ hmem) hm

theorem sideSettled_foldl {env : TableKey → Side → Except String Nat}
    {k : TableKey} {side : Side} (l : List (TableKey × Side)) :
    ∀ (acc : List (TableKey × ReconRecord)), sideSettled env k side acc →
      sideSettled env k side (l.foldl (aggStep env) acc) := by
  induction l with
  | nil => intro acc h; simpa using h
  | cons t rest ih =>
    intro acc h
    rw [List.foldl_cons]
    exact ih _ (sideSettled_aggStep h)

theorem sideSettled_establish (env : TableKey → Side → Except String Nat)
    (k : TableKey) (side : Side) (acc : List (TableKey × ReconRecord)) :
    sideSettled env k side (aggStep env acc (k, side)) := by
  constructor
  · exact mem_aggKeys_aggStep.mpr (Or.inr rfl)
  · unfold aggStep
    by_cases hm : (k, side).1 ∈ aggKeys acc
    · simp only [hm, if_pos]
      intro p hp hpk
      unfold updIn at hp
      rw [List.mem_map] at hp
      obtain ⟨q, hq, hpq⟩ := hp
      by_cases hqk : q.1 = (k, side).1
      · subst hpq
        simp only [hqk, if_pos]
        rcases updateRecord_frame q.2 side (count_rows k.1 k.2 (env k side)) with
          ⟨h1, h2, _, _⟩
        exact ⟨h1, h2⟩
      · subst hpq
        simp only [hqk, if_neg, not_false_iff] at hpk
    · simp only [hm, if_neg, not_false_iff]
      intro p hp hpk
      rw [List.mem_append] at hp
      rcases hp with hp | hp
      · exact absurd (hpk ▸ List.mem_map_of_mem Prod.fst hp) hm
      · rw [List.mem_singleton] at hp
        subst hp
        rcases updateRecord_frame (initRecord k.1 k.2) side
            (count_rows k.1 k.2 (env k side)) with ⟨h1, h2, _, _⟩
        exact ⟨h1, h2⟩

/-- If the `(k, side)` task is in the completion stream, the final mapping's
record under key `k` carries that task's outcome in its `side` fields,
whatever else is in the stream and in whatever order. -/
theorem agg_fields_of_mem (env : TableKey → Side → Except String Nat)
    (order : List (TableKey × Side)) (k : TableKey) (side : Side)
    (h : (k, side) ∈ order) :
    ∀ p ∈ aggregate env order, p.1 = k →
      p.2.countOf side = (count_rows k.1 k.2 (env k side)).count ∧
      p.2.errOf side = (count_rows k.1 k.2 (env k side)).err := by
  obtain ⟨l1, l2, rfl⟩ := List.append_of_mem h
  rw [aggregate, List.foldl_append, List.foldl_cons]
  exact (sideSettled_foldl l2 _ (sideSettled_establish env k side _)).2

/-! ### Bridging lemmas: the full table, the match column, the tuple sets -/

theorem full_keys_eq (env : TableKey → Side → Except String Nat)
    (order : List (TableKey × Side)) :
    (compare_pipeline env order).full.map
        (fun row => (row.record.schema_name, row.record.table_name)) =
      aggKeys (aggregate env order) := by
  have hkc := keyConsistent_aggregate env order
  unfold compare_pipeline addMatchColumn aggKeys
  simp only [List.map_map]
  apply List.map_congr_left
  intro p hp
  have h := hkc p hp
  simp only [Function.comp]
  exact Prod.ext h.1 h.2

theorem mem_addMatchColumn {rs : List ReconRecord} {row : ReconRow} :
    row ∈ addMatchColumn rs ↔
      ∃ r ∈ rs, row = ⟨r, pandasEqCell
        r.estimated_rows_source r.estimated_rows_target⟩ := by
  unfold addMatchColumn
  rw [List.mem_map]
  constructor
  · rintro ⟨r, hr, rfl⟩
    exact ⟨r, hr, rfl⟩
  · rintro ⟨r, hr, rfl⟩
    exact ⟨r, hr, rfl⟩

theorem mem_sourceTuples {rs : List ReconRecord} {t : String × String × Nat} :
    t ∈ sourceTuples rs ↔
      ∃ r ∈ rs, r.schema_name = t.1 ∧ r.table_name = t.2.1 ∧
        r.estimated_rows_source = some t.2.2 := by
  unfold sourceTuples
  rw [List.mem_filterMap]
  constructor
  · rintro ⟨r, hr, hmap⟩
    rw [Option.map_eq_some'] at hmap
    obtain ⟨n, hn, ht⟩ := hmap
    subst ht
    exact ⟨r, hr, rfl, rfl, hn⟩
  · rintro ⟨r, hr, h1, h2, h3⟩
    refine ⟨r, hr, ?_⟩
    rw [h3]
    obtain ⟨a, b, c⟩ := t
    simp only [Option.map_some']
    simp only at h1 h2
    rw [h1, h2]

theorem mem_targetTuples {rs : List ReconRecord} {t : String × String × Nat} :
    t ∈ targetTuples rs ↔
      ∃ r ∈ rs, r.schema_name = t.1 ∧ r.table_name = t.2.1 ∧
        r.estimated_rows_target = some t.2.2 := by
  unfold targetTuples
  rw [List.mem_filterMap]
  constructor
  · rintro ⟨r, hr, hmap⟩
    rw [Option.map_eq_some'] at hmap
    obtain ⟨n, hn, ht⟩ := hmap
    subst ht
    exact ⟨r, hr, rfl, rfl, hn⟩
  · rintro ⟨r, hr, h1, h2, h3⟩
    refine ⟨r, hr, ?_⟩
    rw [h3]
    obtain ⟨a, b, c⟩ := t
    simp only [Option.map_some']
    simp only at h1 h2
    rw [h1, h2]

theorem mem_missing_in_source {rs : List ReconRecord} {t : String × String × Nat} :
    t ∈ missing_in_source rs ↔ t ∈ targetTuples rs ∧ t ∉ sourceTuples rs := by
  unfold missing_in_source
  rw [List.mem_filter, decide_eq_true_iff]

theorem mem_missing_in_target {rs : List ReconRecord} {t : String × String × Nat} :
    t ∈ missing_in_target rs ↔ t ∈ sourceTuples rs ∧ t ∉ targetTuples rs := by
  unfold missing_in_target
  rw [List.mem_filter, decide_eq_true_iff]

theorem record_unique (env : TableKey → Side → Except String Nat)
    (order : List (TableKey × Side)) {p q : TableKey × ReconRecord}
    (hp : p ∈ aggregate env order) (hq : q ∈ aggregate env order)
    (h : p.1 = q.1) : p = q :=
  List.inj_on_of_nodup_map (nodup_aggKeys_aggregate env order) hp hq h

theorem record_names_unique (env : TableKey → Side → Except String Nat)
    (order : List (TableKey × Side)) {r1 r2 : ReconRecord}
    (h1 : r1 ∈ (aggregate env order).map Prod.snd)
    (h2 : r2 ∈ (aggregate env order).map Prod.snd)
    (hs : r1.schema_name = r2.schema_name) (ht : r1.table_name = r2.table_name) :
    r1 = r2 := by
  rw [List.mem_map] at h1 h2
  obtain ⟨p1, hp1, rfl⟩ := h1
  obtain ⟨p2, hp2, rfl⟩ := h2
  have hk1 := keyConsistent_aggregate env order p1 hp1
  have hk2 := keyConsistent_aggregate env order p2 hp2
  have hkey : p1.1 = p2.1 := by
    apply Prod.ext
    · rw [← hk1.1, ← hk2.1]; exact hs
    · rw [← hk1.2, ← hk2.2]; exact ht
  exact congrArg Prod.snd (record_unique env order hp1 hp2 hkey)

/-! ### Claim theorems -/

/-- Claim C10: merging a completed side outcome into a table's reconciliation
record modifies only that side's count and error fields plus the key name
fields.  A source-side merge leaves `estimated_rows_target` and
`target_error` unchanged and symmetrically for a target-side merge, so the
two sides' merges for one table commute: the final record is the same
whichever side's outcome arrives first. -/
theorem C10_merge_frame :
    (∀ (r : ReconRecord) (o : SideOutcome),
      (updateRecord r Side.source o).estimated_rows_target = r.estimated_rows_target ∧
      (updateRecord r Side.source o).target_error = r.target_error ∧
      (updateRecord r Side.source o).estimated_rows_source = o.count ∧
      (updateRecord r Side.source o).source_error = o.err ∧
      (updateRecord r Side.source o).schema_name = o.schema_name ∧
      (updateRecord r Side.source o).table_name = o.table_name) ∧
    (∀ (r : ReconRecord) (o : SideOutcome),
      (updateRecord r Side.target o).estimated_rows_source = r.estimated_rows_source ∧
      (updateRecord r Side.target o).source_error = r.source_error ∧
      (updateRecord r Side.target o).estimated_rows_target = o.count ∧
      (updateRecord r Side.target o).target_error = o.err ∧
      (updateRecord r Side.target o).schema_name = o.schema_name ∧
      (updateRecord r Side.target o).table_name = o.table_name) ∧
    (∀ (s t : String) (q1 q2 : Except String Nat),
      updateRecord (updateRecord (initRecord s t) Side.source (count_rows s t q1))
          Side.target (count_rows s t q2) =
        updateRecord (updateRecord (initRecord s t) Side.target (count_rows s t q2))
          Side.source (count_rows s t q1)) := by
  refine ⟨?_, ?_, ?_⟩
  · intro r o; simp [updateRecord]
  · intro r o; simp [updateRecord]
  · intro s t q1 q2; cases q1 <;> cases q2 <;> rfl

/-- Claim C7 as stated is false: an empty query-definition set is not
surfaced as a configuration error — `fetch_db_info` completes normally with
an empty event log (and an empty report). -/
theorem C7_counterexample :
    fetch_db_info (.ok []) envDiscOk sinkDiscOk = .ok [] := rfl

/-- Claim C7, amended: when the definition file for the requested name is
absent or unreadable, `fetch_db_info` surfaces the error to the caller
before any remote work (the result does not depend on the query
environment); but an empty query-definition set is not detected — the run
completes normally with an empty report. -/
theorem C7_config_error_amended :
    (∀ (e : String) (env : String → Except String (List Row))
        (sink : String → FindResult → Except String Unit),
      fetch_db_info (.error e) env sink = .error e) ∧
    (∀ (env : String → Except String (List Row))
        (sink : String → FindResult → Except String Unit),
      fetch_db_info (.ok []) env sink = .ok []) :=
  ⟨fun _ _ _ => rfl, fun _ _ => rfl⟩

/-- Claim C6 as stated is false: in the discovery path the sink failure is
caught by the per-label `except` block (the save call sits inside the
`try`), so a run whose sink always fails still returns normally, with the
failure only logged. -/
theorem C6_counterexample :
    fetch_db_info (.ok [("Tables", "SELECT 1")]) envDiscOk sinkDiscFail =
      .ok [LabelEvent.saveFailed "Tables" "disk full"] := rfl

/-- Claim C6, amended: a report-sink failure is propagated to the caller as
fatal in the reconciliation path (`compare_row_counts`), whichever of the
three datasets fails to persist; in the discovery path (`fetch_db_info`) a
sink failure is caught per label and the run completes normally. -/
theorem C6_sink_failure_amended :
    (∀ (env : TableKey → Side → Except String Nat) (order : List (TableKey × Side))
        (sink : String → Except String Unit) (e : String),
      sink "RowCountComparison" = .error e →
      compare_row_counts_run env order sink = .error e) ∧
    (∀ (env : TableKey → Side → Except String Nat) (order : List (TableKey × Side))
        (sink : String → Except String Unit) (e : String),
      sink "RowCountComparison" = .ok () → sink "MissingInSource" = .error e →
      compare_row_counts_run env order sink = .error e) ∧
    (∀ (env : TableKey → Side → Except String Nat) (order : List (TableKey × Side))
        (sink : String → Except String Unit) (e : String),
      sink "RowCountComparison" = .ok () → sink "MissingInSource" = .ok () →
      sink "MissingInTarget" = .error e →
      compare_row_counts_run env order sink = .error e) ∧
    (∀ (qs : List (String × String)) (env : String → Except String (List Row))
        (sink : String → FindResult → Except String Unit),
      fetch_db_info (.ok qs) env sink = .ok (fetch_loop env sink (qs.map Prod.fst))) := by
  refine ⟨?_, ?_, ?_, ?_⟩
  · intro env order sink e h
    unfold compare_row_counts_run
    rw [h]
  · intro env order sink e h1 h2
    unfold compare_row_counts_run
    rw [h1, h2]
  · intro env order sink e h1 h2 h3
    unfold compare_row_counts_run
    rw [h1, h2, h3]
  · intro qs env sink
    rfl

/-- Witness for C6's amended theorem: a concrete reconciliation run whose
sink always fails propagates the failure. -/
theorem C6_sink_failure_witness :
    compare_row_counts_run envC4 orderC4 sinkCmpFail = .error "disk full" :=
  C6_sink_failure_amended.1 envC4 orderC4 sinkCmpFail "disk full" rfl

/-- Claim C4: the spec §8 scenario.  With source `{public.a (10), public.b
(5)}` and target `{public.a (10), public.c (3)}`, the full table has exactly
the three records below — `public.a` matches, `public.b` has no target count
and is the sole member of the `MissingInTarget` ("only in source") dataset,
`public.c` has no source count and is the sole member of the
`MissingInSource` ("only in target") dataset. -/
theorem C4_scenario :
    (compare_pipeline envC4 orderC4).full =
      [⟨⟨"public", "a", some 10, some 10, none, none⟩, true⟩,
       ⟨⟨"public", "b", some 5, none, none, some "relation public.b does not exist"⟩, false⟩,
       ⟨⟨"public", "c", none, some 3, some "relation public.c does not exist", none⟩, false⟩] ∧
    (compare_pipeline envC4 orderC4).missingInSource = [("public", "c", 3)] ∧
    (compare_pipeline envC4 orderC4).missingInTarget = [("public", "b", 5)] := by
  refine ⟨by decide, by decide, by decide⟩

/-- Claim C9 as stated is false: the aggregated mapping is a Python dict in
per-key first-completion order and `compare_row_counts` never re-sorts it,
so for a valid completion order in which `public.b`'s tasks finish before
`public.a`'s, the full table is not sorted by TableKey. -/
theorem C9_counterexample :
    orderC9.Perm (subTasks (all_tables srcC9 srcC9)) ∧
    ¬ ((compare_pipeline envC9 orderC9).full.map
        (fun row => (row.record.schema_name, row.record.table_name))).Pairwise keyLe := by
  refine ⟨by decide, by decide⟩

/-- Claim C9, amended: the dispatch enumeration `all_tables` is sorted
lexicographically by (schema_name, table_name); the full reconciliation
table follows per-key first-completion order rather than being sorted for
every completion order, and when completions arrive in submission order the
full table is sorted by TableKey. -/
theorem C9_ordering_amended :
    (∀ src tgt : List TableKey, (all_tables src tgt).Pairwise keyLe) ∧
    (∀ (src tgt : List TableKey) (env : TableKey → Side → Except String Nat),
      ((compare_pipeline env (subTasks (all_tables src tgt))).full.map
        (fun row => (row.record.schema_name, row.record.table_name))).Pairwise keyLe) := by
  constructor
  · exact sorted_all_tables
  · intro src tgt env
    rw [full_keys_eq, aggKeys_aggregate_subTasks env _ (nodup_all_tables src tgt)]
    exact sorted_all_tables src tgt

/-- Claim C8: every discovery label yields exactly one of three outcomes —
non-empty rows, the "not found" absent marker, or a failure carrying the
error message — the event log has exactly one entry per label, and one
label's query failure is recorded as that label's outcome while every other
label is still processed exactly as before. -/
theorem C8_discovery (env : String → Except String (List Row))
    (sink : String → FindResult → Except String Unit) (labels : List String) :
    ((fetch_loop env sink labels).map LabelEvent.label = labels) ∧
    (∀ (lbl : String) (q : Except String (List Row)),
      (∃ l, l ≠ [] ∧ find_objects lbl q = .ok (.rows l)) ∨
      find_objects lbl q = .ok (.absent (lbl ++ " not found.")) ∨
      (∃ e, find_objects lbl q = .error e)) ∧
    (∀ lbl e : String, env lbl = .error e →
      fetch_loop env sink labels =
        labels.map (fun l => if l = lbl then LabelEvent.queryFailed lbl e
          else processLabel env sink l)) := by
  refine ⟨?_, ?_, ?_⟩
  · unfold fetch_loop
    rw [List.map_map]
    have : ∀ l ∈ labels, (LabelEvent.label ∘ processLabel env sink) l = id l := by
      intro l _
      simp only [Function.comp, id]
      unfold processLabel
      cases hf : find_objects l (env l) with
      | error e => rfl
      | ok r =>
        cases hs : sink l r with
        | error e => simp [hs, LabelEvent.label]
        | ok u => simp [hs, LabelEvent.label]
    rw [List.map_congr_left this, List.map_id]
  · intro lbl q
    cases q with
    | error e => exact Or.inr (Or.inr ⟨e, rfl⟩)
    | ok l =>
      cases l with
      | nil => exact Or.inr (Or.inl rfl)
      | cons a as => exact Or.inl ⟨a :: as, by simp, rfl⟩
  · intro lbl e h
    unfold fetch_loop
    apply List.map_congr_left
    intro l _
    by_cases hll : l = lbl
    · subst hll
      rw [if_pos rfl]
      unfold processLabel
      rw [h]
      rfl
    · rw [if_neg hll]

/-- Witness for C8: with two labels where the first label's query fails, the
log records the failure for that label and the saved rows for the other. -/
theorem C8_discovery_witness :
    fetch_loop envDiscFail sinkDiscOk ["Tables", "Views"] =
      [LabelEvent.queryFailed "Tables" "connection reset",
       LabelEvent.saved "Views" (.rows [["v1"]])] :=
  ((C8_discovery envDiscFail sinkDiscOk ["Tables", "Views"]).2.2 "Tables"
      "connection reset" rfl).trans (by decide)

/-- Claim C5: `count_rows` always returns normally — on success the count is
present and the error absent, on failure the error message is stored and the
count is absent, so exactly one of the two is set in a completed attempt;
and a query failure on one side of one table neither removes any table from
the aggregated output nor loses the sibling side's outcome for that table. -/
theorem C5_per_task_failure :
    (∀ (schema table : String) (n : Nat),
      count_rows schema table (.ok n) = ⟨schema, table, some n, none⟩) ∧
    (∀ schema table e : String,
      count_rows schema table (.error e) = ⟨schema, table, none, some e⟩) ∧
    (∀ (schema table : String) (q : Except String Nat),
      ((count_rows schema table q).count.isSome ∧ (count_rows schema table q).err = none) ∨
      ((count_rows schema table q).count = none ∧ (count_rows schema table q).err.isSome)) ∧
    (∀ (src tgt : List TableKey) (env : TableKey → Side → Except String Nat)
        (order : List (TableKey × Side)) (k : TableKey) (side : Side) (e : String),
      order.Perm (subTasks (all_tables src tgt)) →
      env k side = .error e →
      (∀ k2, k2 ∈ src ∨ k2 ∈ tgt → k2 ∈ aggKeys (aggregate env order)) ∧
      (k ∈ src ∨ k ∈ tgt →
        ∃ p ∈ aggregate env order, p.1 = k ∧
          p.2.errOf side = some e ∧ p.2.countOf side = none ∧
          p.2.countOf side.other = (count_rows k.1 k.2 (env k side.other)).count ∧
          p.2.errOf side.other = (count_rows k.1 k.2 (env k side.other)).err)) := by
  refine ⟨fun _ _ _ => rfl, fun _ _ _ => rfl, ?_, ?_⟩
  · intro schema table q
    cases q with
    | ok n => exact Or.inl ⟨rfl, rfl⟩
    | error e => exact Or.inr ⟨rfl, rfl⟩
  · intro src tgt env order k side e hperm hfail
    have hmemkeys : ∀ k2, k2 ∈ src ∨ k2 ∈ tgt → k2 ∈ aggKeys (aggregate env order) := by
      intro k2 hk2
      rw [mem_aggKeys_aggregate, (hperm.map Prod.fst).mem_iff, mem_subTasks_map_fst,
        mem_all_tables]
      exact hk2
    refine ⟨hmemkeys, ?_⟩
    intro hk
    have hkk : k ∈ aggKeys (aggregate env order) := hmemkeys k hk
    unfold aggKeys at hkk
    rw [List.mem_map] at hkk
    obtain ⟨p, hp, hpk⟩ := hkk
    have hin : (k, side) ∈ order := by
      rw [hperm.mem_iff, mem_subTasks, mem_all_tables]
      exact hk
    have hin2 : (k, side.other) ∈ order := by
      rw [hperm.mem_iff, mem_subTasks, mem_all_tables]
      exact hk
    have h1 := agg_fields_of_mem env order k side hin p hp hpk
    have h2 := agg_fields_of_mem env order k side.other hin2 p hp hpk
    refine ⟨p, hp, hpk, ?_, ?_, h2.1, h2.2⟩
    · rw [h1.2, hfail]; rfl
    · rw [h1.1, hfail]; rfl

/-- Witness for C5: in the scenario run, where the source-side count of
`public.c` fails, every enumerated table is still present in the aggregated
output. -/
theorem C5_per_task_failure_witness :
    ("public", "b") ∈ aggKeys (aggregate envC4 orderC4) :=
  (C5_per_task_failure.2.2.2 srcC4 tgtC4 envC4 orderC4 ("public", "c") Side.source
      "relation public.c does not exist" (by decide) rfl).1
    ("public", "b") (Or.inl (by decide))

/-- Claim C2: for enumerations whose union is non-empty (the code builds its
report from a non-empty record set; on an empty union it fails before
producing one), the full reconciliation table has pairwise-distinct
(schema_name, table_name) keys, and a key appears in it exactly when it is
in the union of the source and target enumerations. -/
theorem C2_union_coverage (src tgt : List TableKey)
    (env : TableKey → Side → Except String Nat) (order : List (TableKey × Side))
    (_hne : src ++ tgt ≠ []) (hperm : order.Perm (subTasks (all_tables src tgt))) :
    ((compare_pipeline env order).full.map
        (fun row => (row.record.schema_name, row.record.table_name))).Nodup ∧
    (∀ k : TableKey, k ∈ (compare_pipeline env order).full.map
        (fun row => (row.record.schema_name, row.record.table_name)) ↔
      k ∈ src ∨ k ∈ tgt) := by
  rw [full_keys_eq]
  refine ⟨nodup_aggKeys_aggregate env order, ?_⟩
  intro k
  rw [mem_aggKeys_aggregate, (hperm.map Prod.fst).mem_iff, mem_subTasks_map_fst,
    mem_all_tables]

/-- Witness for C2: in the scenario run, `public.b` — enumerated only on the
source side — has a record in the full table. -/
theorem C2_union_coverage_witness :
    ("public", "b") ∈ (compare_pipeline envC4 orderC4).full.map
      (fun row => (row.record.schema_name, row.record.table_name)) :=
  ((C2_union_coverage srcC4 tgtC4 envC4 orderC4 (by decide) (by decide)).2
    ("public", "b")).mpr (Or.inl (by decide))

/-- Claim C1 as stated is false: `row_count_match` is the pandas comparison
of the two count columns, which always yields a boolean — it is never
absent.  In the scenario run, the record for `public.c` (source side
errored) has `row_count_match = false` even though the two sides do not both
report counts, contradicting "`false` iff both sides report counts that
differ". -/
theorem C1_counterexample :
    ¬ (∀ row ∈ (compare_pipeline envC4 orderC4).full,
        row.row_count_match = false →
          row.record.estimated_rows_source.isSome ∧
            row.record.estimated_rows_target.isSome) := by
  decide

/-- Claim C1, amended: `row_count_match` is always present as a boolean,
never absent.  It is `true` iff both sides report identical counts, and
`false` in every other case — including whenever either side errored or
never reported, since a missing count compares unequal to everything, even
to another missing count. -/
theorem C1_match_flag_amended (env : TableKey → Side → Except String Nat)
    (order : List (TableKey × Side)) (row : ReconRow)
    (h : row ∈ (compare_pipeline env order).full) :
    row.row_count_match = true ↔
      ∃ n, row.record.estimated_rows_source = some n ∧
        row.record.estimated_rows_target = some n := by
  obtain ⟨r, _, hrow⟩ := mem_addMatchColumn.mp h
  subst hrow
  dsimp only
  cases hsrc : r.estimated_rows_source with
  | some x =>
    cases htgt : r.estimated_rows_target with
    | some y =>
      simp only [pandasEqCell]
      constructor
      · intro hxy
        rw [beq_iff_eq] at hxy
        exact ⟨x, rfl, by rw [hxy]⟩
      · rintro ⟨n, hn1, hn2⟩
        rw [Option.some.injEq] at hn1 hn2
        rw [beq_iff_eq, hn1, hn2]
    | none =>
      simp only [pandasEqCell]
      constructor
      · intro hfalse
        exact Bool.noConfusion hfalse
      · rintro ⟨n, _, hn2⟩
        exact Option.noConfusion hn2
  | none =>
    simp only [pandasEqCell]
    constructor
    · intro hfalse
      exact Bool.noConfusion hfalse
    · rintro ⟨n, hn1, _⟩
      exact Option.noConfusion hn1

/-- Witness for C1's amended theorem: the scenario record for `public.a`,
whose two counts are both 10, has `row_count_match = true`. -/
theorem C1_match_flag_witness : rowC4a.row_count_match = true :=
  (C1_match_flag_amended envC4 orderC4 rowC4a (by decide)).mpr
    ⟨10, rfl, rfl⟩

/-- Claim C3: `missing_in_source` is exactly the target-side
(schema, table, count) tuples minus the source-side tuples and symmetrically
for `missing_in_target`; the two sets are disjoint; the tuple sets are built
strictly from non-error entries (a present count implies that side's error
is absent, and a present error implies that side's count is absent, while
the errored row stays in the full table); and no TableKey whose counts
match on both sides contributes to either diff set. -/
theorem C3_diff_sets (env : TableKey → Side → Except String Nat)
    (order : List (TableKey × Side)) :
    (∀ t : String × String × Nat, t ∈ (compare_pipeline env order).missingInSource →
        t ∉ (compare_pipeline env order).missingInTarget) ∧
    (∀ t : String × String × Nat, t ∈ (compare_pipeline env order).missingInSource ↔
        t ∈ targetTuples ((aggregate env order).map Prod.snd) ∧
        t ∉ sourceTuples ((aggregate env order).map Prod.snd)) ∧
    (∀ t : String × String × Nat, t ∈ (compare_pipeline env order).missingInTarget ↔
        t ∈ sourceTuples ((aggregate env order).map Prod.snd) ∧
        t ∉ targetTuples ((aggregate env order).map Prod.snd)) ∧
    (∀ t ∈ sourceTuples ((aggregate env order).map Prod.snd),
        ∃ r ∈ (aggregate env order).map Prod.snd,
          r.schema_name = t.1 ∧ r.table_name = t.2.1 ∧
          r.estimated_rows_source = some t.2.2 ∧ r.source_error = none) ∧
    (∀ t ∈ targetTuples ((aggregate env order).map Prod.snd),
        ∃ r ∈ (aggregate env order).map Prod.snd,
          r.schema_name = t.1 ∧ r.table_name = t.2.1 ∧
          r.estimated_rows_target = some t.2.2 ∧ r.target_error = none) ∧
    (∀ row ∈ (compare_pipeline env order).full,
        (row.record.source_error.isSome → row.record.estimated_rows_source = none) ∧
        (row.record.target_error.isSome → row.record.estimated_rows_target = none)) ∧
    (∀ row ∈ (compare_pipeline env order).full, ∀ n m : Nat,
        row.record.estimated_rows_source = some n →
        row.record.estimated_rows_target = some n →
        (row.record.schema_name, row.record.table_name, m) ∉
            (compare_pipeline env order).missingInSource ∧
        (row.record.schema_name, row.record.table_name, m) ∉
            (compare_pipeline env order).missingInTarget) := by
  refine ⟨?_, ?_, ?_, ?_, ?_, ?_, ?_⟩
  · intro t h1 h2
    exact (mem_missing_in_source.mp h1).2 (mem_missing_in_target.mp h2).1
  · intro t
    exact mem_missing_in_source
  · intro t
    exact mem_missing_in_target
  · intro t ht
    obtain ⟨r, hr, h1, h2, h3⟩ := mem_sourceTuples.mp ht
    refine ⟨r, hr, h1, h2, h3, ?_⟩
    obtain ⟨p, hp, rfl⟩ := List.mem_map.mp hr
    rcases (sideExclusive_aggregate env order p hp).1 with hc | he
    · rw [h3] at hc
      exact Option.noConfusion hc
    · exact he
  · intro t ht
    obtain ⟨r, hr, h1, h2, h3⟩ := mem_targetTuples.mp ht
    refine ⟨r, hr, h1, h2, h3, ?_⟩
    obtain ⟨p, hp, rfl⟩ := List.mem_map.mp hr
    rcases (sideExclusive_aggregate env order p hp).2 with hc | he
    · rw [h3] at hc
      exact Option.noConfusion hc
    · exact he
  · intro row hrow
    obtain ⟨r, hr, rfl⟩ := mem_addMatchColumn.mp hrow
    dsimp only
    obtain ⟨p, hp, rfl⟩ := List.mem_map.mp hr
    have hex := sideExclusive_aggregate env order p hp
    constructor
    · intro hs
      rcases hex.1 with hc | he
      · exact hc
      · rw [he] at hs
        exact Bool.noConfusion hs
    · intro hs
      rcases hex.2 with hc | he
      · exact hc
      · rw [he] at hs
        exact Bool.noConfusion hs
  · intro row hrow n m hsn htn
    obtain ⟨r, hr, rfl⟩ := mem_addMatchColumn.mp hrow
    dsimp only at hsn htn ⊢
    constructor
    · intro hmem
      obtain ⟨ht, hns⟩ := mem_missing_in_source.mp hmem
      obtain ⟨r2, hr2, e1, e2, e3⟩ := mem_targetTuples.mp ht
      have : r2 = r := record_names_unique env order hr2 hr e1 e2
      subst this
      rw [htn] at e3
      rw [Option.some.injEq] at e3
      exact hns (mem_sourceTuples.mpr ⟨r2, hr, rfl, rfl, by rw [hsn, e3]⟩)
    · intro hmem
      obtain ⟨hs, hnt⟩ := mem_missing_in_target.mp hmem
      obtain ⟨r2, hr2, e1, e2, e3⟩ := mem_sourceTuples.mp hs
      have : r2 = r := record_names_unique env order hr2 hr e1 e2
      subst this
      rw [hsn] at e3
      rw [Option.some.injEq] at e3
      exact hnt (mem_targetTuples.mpr ⟨r2, hr, rfl, rfl, by rw [htn, e3]⟩)

/-- Witness for C3: in the scenario run, `("public", "c", 3)` is in the
"only in target" dataset, so by disjointness it is not in the "only in
source" dataset. -/
theorem C3_diff_sets_witness :
    ("public", "c", 3) ∉ (compare_pipeline envC4 orderC4).missingInTarget :=
  (C3_diff_sets envC4 orderC4).1 ("public", "c", 3) (by decide)

end MoveSync
